import Mathlib

/-!
# Verification of the hex-game backend

Shallow embedding of the room/session engine implemented in `main.py`
(with `map_gen.py`'s generator alongside).  The Python `cells` dict
(`id -> {q, r, owner, troops}`) is modelled as an association list from
integer id to a `Cell` record; dict lookup reads the first matching key
and dict assignment updates the first matching entry.  Python integers
are modelled as `Int`.
-/

/-- The four player colors, in the fixed significant order. -/
inductive Color where
  | blue
  | red
  | green
  | yellow
deriving DecidableEq

instance : Fintype Color where
  elems := ⟨[Color.blue, Color.red, Color.green, Color.yellow], by decide⟩
  complete := by intro c; cases c <;> decide

/-- `colors_order = ["blue", "red", "green", "yellow"]` from `main.py`. -/
def colors_order : List Color := [Color.blue, Color.red, Color.green, Color.yellow]

/-- Position of a color in the fixed color order. -/
def colorIdx : Color → Nat
  | Color.blue => 0
  | Color.red => 1
  | Color.green => 2
  | Color.yellow => 3

/-- One board cell: axial coordinates, owner and troop count.  The Python
dict also stores the cell's own id redundantly; here the id is the key of
the association list. -/
structure Cell where
  q : Int
  r : Int
  owner : Option Color
  troops : Int
deriving DecidableEq

/-- The board: cell id to cell, as in `game.cells`. -/
abbrev Cells := List (Int × Cell)

/-- Dict lookup: first entry whose key matches. -/
def getCell : Cells → Int → Option Cell
  | [], _ => none
  | (j, c) :: rest, i => if j = i then some c else getCell rest i

/-- Dict assignment on an existing key: rewrite the first entry whose key
matches (Python dicts hold each key once, so only the first can match). -/
def updateCell : Cells → Int → (Cell → Cell) → Cells
  | [], _, _ => []
  | (j, c) :: rest, i, f =>
      if j = i then (j, f c) :: rest else (j, c) :: updateCell rest i f

/-- The outcome tag returned by `apply_transfer`. -/
inductive TransferKind where
  | occupy
  | transfer
  | battle
deriving DecidableEq

/-- A move-history entry `{src, dst, color}`. -/
structure Move where
  src : Int
  dst : Int
  color : Color
deriving DecidableEq

/-- Per-room state (`GameState` in `main.py`).  The participant maps
`players_by_ws` / `players_by_color` are modelled by the list of taken
colors in join order (names and bot flags play no role in the verified
operations). -/
structure GameState where
  started : Bool
  max_players : Int
  map_radius : Int
  difficulty : Int
  players : List Color
  cells : Cells
  last_moves : List Move
  current_player : Option Color

/-- Python `range(a, b + 1)` over integers. -/
def intRange (a b : Int) : List Int :=
  (List.range (b + 1 - a).toNat).map (fun i => a + i)

/-- `build_map(radius)` from `main.py`: the axial hex disk, ids counted
from 0 in enumeration order, all cells unowned with 0 troops. -/
def buildMap (radius : Int) : Cells :=
  let R := max 1 (min radius 6)
  ((intRange (-R) R).foldl (fun acc q =>
      let r1 := max (-R) (-q - R)
      let r2 := min R (-q + R)
      (intRange r1 r2).foldl
        (fun acc2 r => (acc2.1 ++ [(acc2.2, Cell.mk q r none 0)], acc2.2 + 1)) acc)
    (([] : Cells), (0 : Int))).1

/-- `axial_ring(radius)` from `map_gen.py`: square scan filtered by the
third axial coordinate. -/
def axialRing (radius : Int) : List (Int × Int) :=
  (intRange (-radius) radius).foldl (fun acc q =>
      acc ++ ((intRange (-radius) radius).filter
        (fun r => decide ((-q - r).natAbs ≤ radius.toNat))).map (fun r => (q, r)))
    []

/-- `generate_map(radius)` from `map_gen.py`: ids counted from 1. -/
def generateMap (radius : Int) : Cells :=
  ((axialRing radius).foldl
      (fun acc qr => (acc.1 ++ [(acc.2, Cell.mk qr.1 qr.2 none 0)], acc.2 + 1))
      (([] : Cells), (1 : Int))).1

/-- `are_neighbors(src_id, dst_id, cells)`: the absolute axial deltas must
match one of the three magnitude patterns of the six hex directions. -/
def areNeighbors (cells : Cells) (srcId dstId : Int) : Bool :=
  match getCell cells srcId, getCell cells dstId with
  | some s, some d =>
      let dq := d.q - s.q
      let dr := d.r - s.r
      let ds := -dq - dr
      decide ((dq.natAbs, dr.natAbs, ds.natAbs) ∈
        [((1 : Nat), (0 : Nat), (1 : Nat)), (1, 1, 0), (0, 1, 1)])
  | _, _ => false

/-- `apply_transfer(game, player_color, source, target, amount)` from
`main.py`, acting on the cell map.  All mutations happen after the four
precondition checks; a `none` result therefore corresponds to the Python
early `return None` with the state untouched.  The adjacency check rules
out `source = target`, so the target cell read before the source
deduction still holds the defender's value when it is used below. -/
def apply_transfer (cells : Cells) (player_color : Color) (source target amount : Int) :
    Option (TransferKind × Cells) :=
  match getCell cells source, getCell cells target with
  | some src, some dst =>
      if src.owner ≠ some player_color then none
      else if amount ≤ 0 ∨ src.troops < amount then none
      else if ¬ areNeighbors cells source target then none
      else
        let cells1 := updateCell cells source (fun c => { c with troops := c.troops - amount })
        match dst.owner with
        | none =>
            some (if 0 < amount then TransferKind.occupy else TransferKind.transfer,
              updateCell cells1 target
                (fun c => { c with owner := some player_color, troops := amount }))
        | some dcol =>
            if dcol = player_color then
              some (TransferKind.transfer,
                updateCell cells1 target (fun c => { c with troops := c.troops + amount }))
            else if dst.troops < amount then
              some (TransferKind.battle,
                updateCell cells1 target
                  (fun c =>
                    { c with owner := some player_color, troops := amount - dst.troops }))
            else
              some (TransferKind.battle,
                updateCell cells1 target (fun c => { c with troops := dst.troops - amount }))
  | _, _ => none

/-- `apply_transfer` at the room level: the function receives the room
state and reads and writes only `game.cells`. -/
def applyTransferGame (g : GameState) (color : Color) (source target amount : Int) :
    Option TransferKind × GameState :=
  match apply_transfer g.cells color source target amount with
  | none => (none, g)
  | some (k, cells') => (some k, { g with cells := cells' })

/-- The per-turn bonus after a successful transfer: every cell owned by
the acting color gains one troop, capped at 100. -/
def plusOneBonus (cells : Cells) (color : Color) : Cells :=
  cells.map (fun pr =>
    if pr.2.owner = some color then
      (pr.1, { pr.2 with troops := min 100 (pr.2.troops + 1) })
    else pr)

/-- The random extra bonus: the chosen cell `cid` gains `amt` troops,
capped at 100 (`cid` and `amt` stand for the values drawn at random). -/
def randomBonus (cells : Cells) (cid : Int) (amt : Int) : Cells :=
  updateCell cells cid (fun c => { c with troops := min 100 (c.troops + amt) })

/-- The `config` command handler: clamp `max_players` into [2,4].  The
code applies it without checking `game.started`. -/
def handleConfig (g : GameState) (v : Int) : GameState :=
  { g with max_players := max 2 (min 4 v) }

/-- The `config_map` command handler: clamp `map_radius` into [2,6],
applied without checking `game.started`. -/
def handleConfigMap (g : GameState) (v : Int) : GameState :=
  { g with map_radius := max 2 (min 6 v) }

/-- The `config_difficulty` command handler: clamp `difficulty` into
[1,3], applied without checking `game.started`. -/
def handleConfigDifficulty (g : GameState) (v : Int) : GameState :=
  { g with difficulty := max 1 (min 3 v) }

/-- Per-color owned-cell count, as accumulated by `GameState.stats`. -/
def ownedCount (cells : Cells) (c : Color) : Nat :=
  cells.foldl (fun n pr => if pr.2.owner = some c then n + 1 else n) 0

/-- `alive_colors`: the colors, in fixed order, owning at least one cell. -/
def aliveColors (cells : Cells) : List Color :=
  colors_order.filter (fun c => decide (0 < ownedCount cells c))

/-- Python `list.index` for colors (position of the first occurrence). -/
def listIdx (a : Color) : List Color → Nat
  | [] => 0
  | b :: l => if b = a then 0 else listIdx a l + 1

/-- The body of `next_player_color` once the alive list is computed:
empty list gives `None`; a current color missing from the alive list
gives the first alive color; otherwise the entry after the current one,
wrapping around. -/
def nextFromAlive (alive : List Color) (current : Option Color) : Option Color :=
  if alive.isEmpty then none
  else
    match current with
    | none => alive.head?
    | some cur =>
        if cur ∉ alive then alive.head?
        else alive[(listIdx cur alive + 1) % alive.length]?

/-- `next_player_color(game)` from `main.py`. -/
def nextPlayerColor (cells : Cells) (current : Option Color) : Option Color :=
  nextFromAlive (aliveColors cells) current

/-- The color-assignment step of the connect handler: the first color of
`colors_order` not yet in `players_by_color`, independent of `started`. -/
def freeColor (players : List Color) : Option Color :=
  colors_order.find? (fun c => decide (c ∉ players))

/-- The connect handler: refuse when no color is free (error + close),
otherwise register the joiner under the assigned color.  Nothing else in
the room state is touched. -/
def joinRoom (g : GameState) : Option Color × GameState :=
  match freeColor g.players with
  | none => (none, g)
  | some c => (some c, { g with players := g.players ++ [c] })

/-- `find first idx in cell_ids not yet used` inside the start handler. -/
def pickFirst (shuffled used : List Int) : Option Int :=
  shuffled.find? (fun i => decide (i ∉ used))

/-- The start handler's assignment loop: for each participant in order,
take the first not-yet-used id from the shuffled id list and give that
cell to the participant with 10 troops (skipping when the list is
exhausted, as the `cid is None: continue` branch does). -/
def assignLoop : List Color → Cells → List Int → List Int → Cells
  | [], cells, _, _ => cells
  | p :: ps, cells, shuffled, used =>
      match pickFirst shuffled used with
      | none => assignLoop ps cells shuffled used
      | some cid =>
          assignLoop ps
            (updateCell cells cid (fun c => { c with owner := some p, troops := 10 }))
            shuffled (cid :: used)

/-- The `start` command handler (`main.py` lines 382-425).  The shuffled
cell-id list is passed in as a parameter standing for the random shuffle;
`none` covers both the already-started no-op and the under-populated
error reply, neither of which changes the state. -/
def startGame (g : GameState) (shuffled : List Int) : Option GameState :=
  if g.started then none
  else if g.players.length < 2 then none
  else
    let cells0 := buildMap g.map_radius
    let cells1 := assignLoop g.players cells0 shuffled []
    some { g with
      started := true
      cells := cells1
      last_moves := []
      current_player := colors_order.find? (fun c => decide (c ∈ g.players)) }

/-! ## Basic lemmas about the cell map -/

theorem getCell_updateCell (cells : Cells) (i j : Int) (f : Cell → Cell) :
    getCell (updateCell cells i f) j =
      if i = j then (getCell cells j).map f else getCell cells j := by
  induction cells with
  | nil => simp [updateCell, getCell]
  | cons hd tl ih =>
      obtain ⟨k, c⟩ := hd
      simp only [updateCell]
      by_cases hki : k = i
      · subst hki
        simp only [if_pos rfl, getCell]
        by_cases hkj : k = j
        · subst hkj; simp
        · simp [hkj]
      · simp only [if_neg hki, getCell]
        by_cases hkj : k = j
        · subst hkj
          have hik : ¬ i = k := fun h => hki h.symm
          simp [hik]
        · simp [hkj, ih]

theorem mem_updateCell {cells : Cells} {i : Int} {f : Cell → Cell} {pr : Int × Cell}
    (h : pr ∈ updateCell cells i f) :
    pr ∈ cells ∨ ∃ c, getCell cells i = some c ∧ pr = (i, f c) := by
  induction cells with
  | nil => simp [updateCell] at h
  | cons hd tl ih =>
      obtain ⟨k, c⟩ := hd
      simp only [updateCell] at h
      split at h
      next hki =>
        rcases List.mem_cons.mp h with h1 | h1
        · subst hki
          exact Or.inr ⟨c, by simp [getCell], h1⟩
        · exact Or.inl (List.mem_cons_of_mem _ h1)
      next hki =>
        rcases List.mem_cons.mp h with h1 | h1
        · exact Or.inl (by simp [h1])
        · rcases ih h1 with h2 | ⟨c', hc', hpr⟩
          · exact Or.inl (List.mem_cons_of_mem _ h2)
          · refine Or.inr ⟨c', ?_, hpr⟩
            simpa [getCell, hki] using hc'

theorem keys_updateCell (cells : Cells) (i : Int) (f : Cell → Cell) :
    (updateCell cells i f).map Prod.fst = cells.map Prod.fst := by
  induction cells with
  | nil => rfl
  | cons hd tl ih =>
      obtain ⟨k, c⟩ := hd
      by_cases hki : k = i
      · simp [updateCell, hki]
      · simp [updateCell, hki, ih]

theorem getCell_mem {cells : Cells} {j : Int} {c : Cell} (h : getCell cells j = some c) :
    (j, c) ∈ cells := by
  induction cells with
  | nil => simp [getCell] at h
  | cons hd tl ih =>
      obtain ⟨k, c'⟩ := hd
      simp only [getCell] at h
      split at h
      next hkj =>
        injection h with h2
        exact List.mem_cons.mpr (Or.inl (by rw [hkj, h2]))
      next hkj => exact List.mem_cons_of_mem _ (ih h)

theorem mem_keys_getCell {cells : Cells} {a : Int} (h : a ∈ cells.map Prod.fst) :
    ∃ c, getCell cells a = some c := by
  induction cells with
  | nil => simp at h
  | cons hd tl ih =>
      obtain ⟨k, c⟩ := hd
      by_cases hka : k = a
      · exact ⟨c, by simp [getCell, hka]⟩
      · simp only [List.map_cons, List.mem_cons] at h
        rcases h with h | h
        · exact absurd h.symm hka
        · obtain ⟨c', hc'⟩ := ih h
          exact ⟨c', by simp [getCell, hka, hc']⟩

theorem areNeighbors_ne {cells : Cells} {s t : Int} (h : areNeighbors cells s t = true) :
    s ≠ t := by
  intro he
  subst he
  unfold areNeighbors at h
  cases hs : getCell cells s with
  | none => rw [hs] at h; simp at h
  | some c =>
      rw [hs] at h
      simp only [sub_self, neg_zero, Int.natAbs_zero, decide_eq_true_eq] at h
      exact absurd h (by decide)

/-! ## Inversion of a successful transfer -/

/-- How a successful transfer rewrites the target cell, by target state. -/
def targetUpdate (color : Color) (a : Int) (dst : Cell) : Cell → Cell :=
  match dst.owner with
  | none => fun c => { c with owner := some color, troops := a }
  | some dcol =>
      if dcol = color then fun c => { c with troops := c.troops + a }
      else if dst.troops < a then
        fun c => { c with owner := some color, troops := a - dst.troops }
      else fun c => { c with troops := dst.troops - a }

/-- The outcome tag of a successful transfer, by target state. -/
def targetKind (color : Color) (a : Int) (dst : Cell) : TransferKind :=
  match dst.owner with
  | none => if 0 < a then TransferKind.occupy else TransferKind.transfer
  | some dcol => if dcol = color then TransferKind.transfer else TransferKind.battle

theorem apply_transfer_some {cells : Cells} {color : Color} {s t a : Int}
    {k : TransferKind} {cells' : Cells}
    (h : apply_transfer cells color s t a = some (k, cells')) :
    ∃ src dst, getCell cells s = some src ∧ getCell cells t = some dst ∧
      src.owner = some color ∧ 0 < a ∧ a ≤ src.troops ∧
      areNeighbors cells s t = true ∧
      cells' =
        updateCell (updateCell cells s (fun c => { c with troops := c.troops - a })) t
          (targetUpdate color a dst) ∧
      k = targetKind color a dst := by
  unfold apply_transfer at h
  cases hs : getCell cells s with
  | none => rw [hs] at h; simp at h
  | some src =>
  cases hd : getCell cells t with
  | none => rw [hs, hd] at h; simp at h
  | some dst =>
  rw [hs, hd] at h
  simp only [] at h
  refine ⟨src, dst, rfl, rfl, ?_⟩
  split at h
  · simp at h
  next h1 =>
  split at h
  · simp at h
  next h2 =>
  split at h
  · simp at h
  next h3 =>
  rw [not_not] at h1
  push_neg at h2
  rw [not_not] at h3
  refine ⟨h1, by omega, h2.2, h3, ?_⟩
  cases hdo : dst.owner with
  | none =>
      rw [hdo] at h
      simp only [Option.some.injEq, Prod.mk.injEq] at h
      obtain ⟨hk, hc⟩ := h
      constructor
      · rw [← hc]
        simp [targetUpdate, hdo]
      · rw [← hk]
        simp [targetKind, hdo]
  | some dcol =>
      rw [hdo] at h
      simp only [] at h
      by_cases hdc : dcol = color
      · rw [if_pos hdc] at h
        simp only [Option.some.injEq, Prod.mk.injEq] at h
        obtain ⟨hk, hc⟩ := h
        constructor
        · rw [← hc]
          simp [targetUpdate, hdo, hdc]
        · rw [← hk]
          simp [targetKind, hdo, hdc]
      · rw [if_neg hdc] at h
        by_cases hlt : dst.troops < a
        · rw [if_pos hlt] at h
          simp only [Option.some.injEq, Prod.mk.injEq] at h
          obtain ⟨hk, hc⟩ := h
          constructor
          · rw [← hc]
            simp [targetUpdate, hdo, hdc, hlt]
          · rw [← hk]
            simp [targetKind, hdo, hdc]
        · rw [if_neg hlt] at h
          simp only [Option.some.injEq, Prod.mk.injEq] at h
          obtain ⟨hk, hc⟩ := h
          constructor
          · rw [← hc]
            simp [targetUpdate, hdo, hdc, hlt]
          · rw [← hk]
            simp [targetKind, hdo, hdc]

/-! ## Claim theorems: transfer behaviour -/

/-- C2: whenever a precondition of `apply_transfer` fails — invalid source
or target id, non-positive amount, source not owned by the acting color,
insufficient troops, or non-adjacent cells — the call returns failure
(`None`) and the whole game state is unchanged. -/
theorem apply_transfer_failure_no_change (g : GameState) (color : Color) (s t a : Int)
    (h : getCell g.cells s = none ∨ getCell g.cells t = none ∨ a ≤ 0 ∨
      (∃ src, getCell g.cells s = some src ∧ src.owner ≠ some color) ∨
      (∃ src, getCell g.cells s = some src ∧ src.troops < a) ∨
      areNeighbors g.cells s t = false) :
    applyTransferGame g color s t a = (none, g) := by
  have hnone : apply_transfer g.cells color s t a = none := by
    cases hres : apply_transfer g.cells color s t a with
    | none => rfl
    | some p =>
        obtain ⟨k, cells'⟩ := p
        obtain ⟨src, dst, hs, hd, howner, hpos, hle, hnb, -, -⟩ := apply_transfer_some hres
        rcases h with h | h | h | ⟨src', hsrc', hown'⟩ | ⟨src', hsrc', hlt'⟩ | h
        · rw [h] at hs; exact absurd hs (by simp)
        · rw [h] at hd; exact absurd hd (by simp)
        · omega
        · rw [hs] at hsrc'
          injection hsrc' with he
          rw [← he] at hown'
          exact absurd howner hown'
        · rw [hs] at hsrc'
          injection hsrc' with he
          rw [← he] at hlt'
          omega
        · rw [hnb] at h
          exact absurd h (by simp)
  unfold applyTransferGame
  rw [hnone]

/-- C2 witness: a transfer from a cell id that does not exist fails and
leaves the state untouched. -/
theorem apply_transfer_failure_no_change_witness :
    applyTransferGame
        { started := true, max_players := 4, map_radius := 3, difficulty := 2,
          players := [Color.blue, Color.red], cells := [], last_moves := [],
          current_player := some Color.blue }
        Color.blue 0 1 5 =
      (none,
        { started := true, max_players := 4, map_radius := 3, difficulty := 2,
          players := [Color.blue, Color.red], cells := [], last_moves := [],
          current_player := some Color.blue }) :=
  apply_transfer_failure_no_change _ Color.blue 0 1 5 (Or.inl rfl)

/-- C10: a call to `apply_transfer` — successful or not — changes no cell
other than the source and the target, and never touches the phase flag,
the configuration, the participant list, the move history or the current
player. -/
theorem apply_transfer_frame (g : GameState) (color : Color) (s t a : Int) :
    (applyTransferGame g color s t a).2.started = g.started ∧
    (applyTransferGame g color s t a).2.max_players = g.max_players ∧
    (applyTransferGame g color s t a).2.map_radius = g.map_radius ∧
    (applyTransferGame g color s t a).2.difficulty = g.difficulty ∧
    (applyTransferGame g color s t a).2.players = g.players ∧
    (applyTransferGame g color s t a).2.last_moves = g.last_moves ∧
    (applyTransferGame g color s t a).2.current_player = g.current_player ∧
    ∀ i, i ≠ s → i ≠ t →
      getCell (applyTransferGame g color s t a).2.cells i = getCell g.cells i := by
  cases hres : apply_transfer g.cells color s t a with
  | none =>
      unfold applyTransferGame
      rw [hres]
      exact ⟨rfl, rfl, rfl, rfl, rfl, rfl, rfl, fun i _ _ => rfl⟩
  | some p =>
      obtain ⟨k, cells'⟩ := p
      obtain ⟨src, dst, hs, hd, -, -, -, -, hcells, -⟩ := apply_transfer_some hres
      unfold applyTransferGame
      rw [hres]
      refine ⟨rfl, rfl, rfl, rfl, rfl, rfl, rfl, ?_⟩
      intro i his hit
      show getCell cells' i = getCell g.cells i
      rw [hcells, getCell_updateCell, getCell_updateCell,
        if_neg (fun he => hit he.symm), if_neg (fun he => his he.symm)]

/-- C10 witness: a transfer in a tiny two-cell room leaves everything but
the two involved cells alone. -/
theorem apply_transfer_frame_witness :
    (2 : Int) ≠ 0 ∧ (2 : Int) ≠ 1 ∧
    getCell (applyTransferGame
        { started := true, max_players := 4, map_radius := 3, difficulty := 2,
          players := [Color.blue, Color.red],
          cells := [(0, Cell.mk 0 0 (some Color.blue) 10), (1, Cell.mk 0 1 none 0),
            (2, Cell.mk 1 0 (some Color.red) 4)],
          last_moves := [], current_player := some Color.blue }
        Color.blue 0 1 5).2.cells 2 =
      some (Cell.mk 1 0 (some Color.red) 4) := by
  refine ⟨by decide, by decide, ?_⟩
  rw [(apply_transfer_frame _ Color.blue 0 1 5).2.2.2.2.2.2.2 2 (by decide) (by decide)]
  decide

/-- C3: a successful transfer into a cell owned by a different color is a
battle: the attacker takes the cell with `amount - defender` troops when
`amount > defender`, otherwise the defender keeps the cell with
`defender - amount` troops, holding it with 0 troops on a tie; the
reported tag is `battle` in both sub-cases. -/
theorem battle_resolution (cells : Cells) (color : Color) (s t a : Int)
    (dst : Cell) (dcol : Color) (k : TransferKind) (cells' : Cells)
    (hd : getCell cells t = some dst) (hdo : dst.owner = some dcol) (hne : dcol ≠ color)
    (h : apply_transfer cells color s t a = some (k, cells')) :
    k = TransferKind.battle ∧
    (dst.troops < a →
      getCell cells' t = some { dst with owner := some color, troops := a - dst.troops }) ∧
    (a ≤ dst.troops → getCell cells' t = some { dst with troops := dst.troops - a }) ∧
    (a = dst.troops → getCell cells' t = some { dst with troops := 0 }) := by
  obtain ⟨src, dst', hs, hd', -, -, -, hnb, hcells, hk⟩ := apply_transfer_some h
  rw [hd] at hd'
  injection hd' with hdd
  subst hdd
  have hst : s ≠ t := areNeighbors_ne hnb
  have hget : getCell cells' t = some (targetUpdate color a dst dst) := by
    rw [hcells, getCell_updateCell, if_pos rfl, getCell_updateCell,
      if_neg hst, hd]
    rfl
  refine ⟨?_, ?_, ?_, ?_⟩
  · rw [hk]
    simp [targetKind, hdo, hne]
  · intro hlt
    rw [hget]
    simp [targetUpdate, hdo, hne, hlt]
  · intro hge
    rw [hget]
    simp [targetUpdate, hdo, hne, not_lt.mpr hge]
  · intro heq
    rw [hget]
    simp [targetUpdate, hdo, hne, heq]

/-- C3 witness: blue attacks a red cell holding 7 with 10 troops and a
tie attack with equal troops; the first flips the cell to blue with 3
troops. -/
theorem battle_resolution_witness :
    getCell ([(0, Cell.mk 0 0 (some Color.blue) 12), (1, Cell.mk 0 1 (some Color.red) 7)] :
        Cells) 1 = some (Cell.mk 0 1 (some Color.red) 7) ∧
    (Cell.mk 0 1 (some Color.red) 7).owner = some Color.red ∧
    Color.red ≠ Color.blue ∧
    getCell
      [(0, Cell.mk 0 0 (some Color.blue) 2), (1, Cell.mk 0 1 (some Color.blue) 3)] 1 =
      some { Cell.mk 0 1 (some Color.red) 7 with owner := some Color.blue, troops := 10 - 7 } := by
  refine ⟨by decide, by decide, by decide, ?_⟩
  have hb := battle_resolution
    [(0, Cell.mk 0 0 (some Color.blue) 12), (1, Cell.mk 0 1 (some Color.red) 7)]
    Color.blue 0 1 10 (Cell.mk 0 1 (some Color.red) 7) Color.red
    TransferKind.battle
    [(0, Cell.mk 0 0 (some Color.blue) 2), (1, Cell.mk 0 1 (some Color.blue) 3)]
    (by decide) (by decide) (by decide) (by decide)
  exact hb.2.1 (by decide)

/-- C7: from a state where all troop counts are non-negative and every
unowned cell has 0 troops, `apply_transfer` leaves no cell with negative
troops and no cell with positive troops but no owner. -/
theorem apply_transfer_invariants (g : GameState) (color : Color) (s t a : Int)
    (hnn : ∀ pr ∈ g.cells, 0 ≤ pr.2.troops)
    (hzero : ∀ pr ∈ g.cells, pr.2.owner = none → pr.2.troops = 0) :
    ∀ pr ∈ (applyTransferGame g color s t a).2.cells,
      0 ≤ pr.2.troops ∧ (pr.2.owner = none → pr.2.troops = 0) := by
  cases hres : apply_transfer g.cells color s t a with
  | none =>
      unfold applyTransferGame
      rw [hres]
      intro pr hpr
      exact ⟨hnn pr hpr, hzero pr hpr⟩
  | some p =>
      obtain ⟨k, cells'⟩ := p
      obtain ⟨src, dst, hs, hd, howner, hpos, hle, hnb, hcells, -⟩ := apply_transfer_some hres
      have hdnn : 0 ≤ dst.troops := hnn _ (getCell_mem hd)
      unfold applyTransferGame
      rw [hres]
      intro pr hpr
      rw [show ({ g with cells := cells' } : GameState).cells = cells' from rfl, hcells] at hpr
      rcases mem_updateCell hpr with hpr1 | ⟨c, hc, hpr2⟩
      · rcases mem_updateCell hpr1 with hpr2 | ⟨c, hc, hpr3⟩
        · exact ⟨hnn pr hpr2, hzero pr hpr2⟩
        · rw [hs] at hc
          injection hc with hc
          subst hc
          subst hpr3
          refine ⟨by simp; omega, ?_⟩
          intro hno
          simp only at hno
          rw [howner] at hno
          cases hno
      · have hst : s ≠ t := areNeighbors_ne hnb
        rw [getCell_updateCell, if_neg hst, hd] at hc
        injection hc with hc
        subst hc
        subst hpr2
        cases hdo : dst.owner with
        | none =>
            have hu : targetUpdate color a dst dst =
                { dst with owner := some color, troops := a } := by
              simp [targetUpdate, hdo]
            rw [hu]
            refine ⟨by simp; omega, fun hno => ?_⟩
            simp at hno
        | some dcol =>
            by_cases hdc : dcol = color
            · have hu : targetUpdate color a dst dst =
                  { dst with troops := dst.troops + a } := by
                simp [targetUpdate, hdo, hdc]
              rw [hu]
              refine ⟨by simp; omega, fun hno => ?_⟩
              simp [hdo] at hno
            · by_cases hlt : dst.troops < a
              · have hu : targetUpdate color a dst dst =
                    { dst with owner := some color, troops := a - dst.troops } := by
                  simp [targetUpdate, hdo, hdc, hlt]
                rw [hu]
                refine ⟨by simp; omega, fun hno => ?_⟩
                simp at hno
              · have hu : targetUpdate color a dst dst =
                    { dst with troops := dst.troops - a } := by
                  simp [targetUpdate, hdo, hdc, hlt]
                rw [hu]
                refine ⟨by simp; omega, fun hno => ?_⟩
                simp [hdo] at hno
/-- C7 witness: after an occupy move out of a 10-troop cell, the occupied
cell of the resulting state has a non-negative troop count. -/
theorem apply_transfer_invariants_witness :
    (0 : Int) ≤ ((1 : Int), Cell.mk 0 1 (some Color.blue) 10).2.troops :=
  (apply_transfer_invariants
    { started := true, max_players := 4, map_radius := 3, difficulty := 2,
      players := [Color.blue, Color.red],
      cells := [(0, Cell.mk 0 0 (some Color.blue) 10), (1, Cell.mk 0 1 none 0)],
      last_moves := [], current_player := some Color.blue }
    Color.blue 0 1 10 (by decide) (by decide)
    ((1 : Int), Cell.mk 0 1 (some Color.blue) 10) (by decide)).1

/-! ## Claim theorems: troop bounds (C1) -/

/-- Two adjacent blue cells at the 100-troop cap. -/
def capCells : Cells :=
  [(0, Cell.mk 0 0 (some Color.blue) 100), (1, Cell.mk 0 1 (some Color.blue) 100)]

/-- C1 counterexample: from a state where every troop count is within
[0, 100], a same-owner transfer of 100 troops succeeds and leaves the
target at 200 troops — the 100 cap is not preserved by same-owner
transfers. -/
theorem transfer_cap_counterexample :
    (∀ pr ∈ capCells, 0 ≤ pr.2.troops ∧ pr.2.troops ≤ 100) ∧
    apply_transfer capCells Color.blue 0 1 100 =
      some (TransferKind.transfer,
        [(0, Cell.mk 0 0 (some Color.blue) 0), (1, Cell.mk 0 1 (some Color.blue) 200)]) ∧
    (∃ pr ∈ ([(0, Cell.mk 0 0 (some Color.blue) 0),
        (1, Cell.mk 0 1 (some Color.blue) 200)] : Cells), 100 < pr.2.troops) := by
  decide

/-- C1 amended: troop counts never go negative (see the invariant
theorem), and occupy, battle resolution, the per-turn +1 bonus and the
random bonus all preserve the 100 cap; a same-owner transfer, however,
is applied without a cap and can push a cell above 100. -/
theorem troop_bounds_amended :
    (∀ (cells : Cells) (color : Color) (s t a : Int) (k : TransferKind) (cells' : Cells),
      (∀ pr ∈ cells, 0 ≤ pr.2.troops) →
      (∀ pr ∈ cells, pr.2.troops ≤ 100) →
      apply_transfer cells color s t a = some (k, cells') →
      k ≠ TransferKind.transfer →
      ∀ pr ∈ cells', pr.2.troops ≤ 100) ∧
    (∀ (cells : Cells) (color : Color),
      (∀ pr ∈ cells, pr.2.troops ≤ 100) →
      ∀ pr ∈ plusOneBonus cells color, pr.2.troops ≤ 100) ∧
    (∀ (cells : Cells) (cid amt : Int),
      (∀ pr ∈ cells, pr.2.troops ≤ 100) →
      ∀ pr ∈ randomBonus cells cid amt, pr.2.troops ≤ 100) ∧
    (∀ (cells : Cells) (color : Color),
      (∀ pr ∈ cells, 0 ≤ pr.2.troops) →
      ∀ pr ∈ plusOneBonus cells color, 0 ≤ pr.2.troops) ∧
    (∀ (cells : Cells) (cid amt : Int), 1 ≤ amt →
      (∀ pr ∈ cells, 0 ≤ pr.2.troops) →
      ∀ pr ∈ randomBonus cells cid amt, 0 ≤ pr.2.troops) := by
  refine ⟨?_, ?_, ?_, ?_, ?_⟩
  · intro cells color s t a k cells' hnn hub h hk pr hpr
    obtain ⟨src, dst, hs, hd, howner, hpos, hle, hnb, hcells, hkind⟩ := apply_transfer_some h
    have hsub : src.troops ≤ 100 := hub _ (getCell_mem hs)
    have hdub : dst.troops ≤ 100 := hub _ (getCell_mem hd)
    have hdnn : 0 ≤ dst.troops := hnn _ (getCell_mem hd)
    rw [hcells] at hpr
    rcases mem_updateCell hpr with hpr1 | ⟨c, hc, hpr2⟩
    · rcases mem_updateCell hpr1 with hpr2 | ⟨c, hc, hpr3⟩
      · exact hub pr hpr2
      · rw [hs] at hc
        injection hc with hc
        subst hc
        subst hpr3
        simp
        omega
    · have hst : s ≠ t := areNeighbors_ne hnb
      rw [getCell_updateCell, if_neg hst, hd] at hc
      injection hc with hc
      subst hc
      subst hpr2
      cases hdo : dst.owner with
      | none =>
          have hu : targetUpdate color a dst dst =
              { dst with owner := some color, troops := a } := by
            simp [targetUpdate, hdo]
          rw [hu]
          simp
          omega
      | some dcol =>
          by_cases hdc : dcol = color
          · exact absurd (by rw [hkind]; simp [targetKind, hdo, hdc]) hk
          · by_cases hlt : dst.troops < a
            · have hu : targetUpdate color a dst dst =
                  { dst with owner := some color, troops := a - dst.troops } := by
                simp [targetUpdate, hdo, hdc, hlt]
              rw [hu]
              simp
              omega
            · have hu : targetUpdate color a dst dst =
                  { dst with troops := dst.troops - a } := by
                simp [targetUpdate, hdo, hdc, hlt]
              rw [hu]
              simp
              omega
  · intro cells color hub pr hpr
    simp only [plusOneBonus, List.mem_map] at hpr
    obtain ⟨pr0, hpr0, hpr⟩ := hpr
    by_cases ho : pr0.2.owner = some color
    · rw [if_pos ho] at hpr
      subst hpr
      simp
    · rw [if_neg ho] at hpr
      subst hpr
      exact hub _ hpr0
  · intro cells cid amt hub pr hpr
    rcases mem_updateCell hpr with hpr1 | ⟨c, hc, hpr2⟩
    · exact hub pr hpr1
    · subst hpr2
      simp
  · intro cells color hnn pr hpr
    simp only [plusOneBonus, List.mem_map] at hpr
    obtain ⟨pr0, hpr0, hpr⟩ := hpr
    by_cases ho : pr0.2.owner = some color
    · rw [if_pos ho] at hpr
      subst hpr
      have := hnn _ hpr0
      simp
      omega
    · rw [if_neg ho] at hpr
      subst hpr
      exact hnn _ hpr0
  · intro cells cid amt hamt hnn pr hpr
    rcases mem_updateCell hpr with hpr1 | ⟨c, hc, hpr2⟩
    · exact hnn pr hpr1
    · subst hpr2
      have h0 : 0 ≤ c.troops := by simpa using hnn _ (getCell_mem hc)
      simp [le_min_iff]
      omega

/-- C1 amended witness: the bounds at work on a small concrete board. -/
theorem troop_bounds_amended_witness :
    (∀ pr ∈ ([(0, Cell.mk 0 0 (some Color.blue) 10), (1, Cell.mk 0 1 none 0)] : Cells),
      pr.2.troops ≤ 100) ∧
    (∀ pr ∈ plusOneBonus [(0, Cell.mk 0 0 (some Color.blue) 100)] Color.blue,
      pr.2.troops ≤ 100) := by
  refine ⟨by decide, ?_⟩
  exact troop_bounds_amended.2.1 [(0, Cell.mk 0 0 (some Color.blue) 100)] Color.blue (by decide)

/-! ## Claim theorems: configuration commands (C4) -/

/-- A room in which a game is running. -/
def startedRoom : GameState :=
  { started := true, max_players := 4, map_radius := 3, difficulty := 2,
    players := [Color.blue, Color.red], cells := capCells, last_moves := [],
    current_player := some Color.blue }

/-- C4 counterexample: the three config commands change the configuration
even though the room has `started = true` — there is no lobby-only guard
in the handlers. -/
theorem config_ignores_started_counterexample :
    startedRoom.started = true ∧
    startedRoom.max_players = 4 ∧ (handleConfig startedRoom 2).max_players = 2 ∧
    startedRoom.map_radius = 3 ∧ (handleConfigMap startedRoom 5).map_radius = 5 ∧
    startedRoom.difficulty = 2 ∧ (handleConfigDifficulty startedRoom 1).difficulty = 1 := by
  decide

/-- C4 amended: the config commands clamp `max_players` into [2,4],
`map_radius` into [2,6] and `difficulty` into [1,3], but they are applied
in every phase: the handlers never read `started`, so the same clamped
update happens while a game is running. -/
theorem config_clamp_amended :
    ∀ (g : GameState) (v : Int),
      2 ≤ (handleConfig g v).max_players ∧ (handleConfig g v).max_players ≤ 4 ∧
      (2 ≤ v → v ≤ 4 → (handleConfig g v).max_players = v) ∧
      (handleConfig g v).started = g.started ∧
      2 ≤ (handleConfigMap g v).map_radius ∧ (handleConfigMap g v).map_radius ≤ 6 ∧
      (2 ≤ v → v ≤ 6 → (handleConfigMap g v).map_radius = v) ∧
      (handleConfigMap g v).started = g.started ∧
      1 ≤ (handleConfigDifficulty g v).difficulty ∧
      (handleConfigDifficulty g v).difficulty ≤ 3 ∧
      (1 ≤ v → v ≤ 3 → (handleConfigDifficulty g v).difficulty = v) ∧
      (handleConfigDifficulty g v).started = g.started := by
  intro g v
  refine ⟨?_, ?_, fun h1 h2 => ?_, rfl, ?_, ?_, fun h1 h2 => ?_, rfl, ?_, ?_,
    fun h1 h2 => ?_, rfl⟩
  · show 2 ≤ max 2 (min 4 v); omega
  · show max 2 (min 4 v) ≤ 4; omega
  · show max 2 (min 4 v) = v; omega
  · show 2 ≤ max 2 (min 6 v); omega
  · show max 2 (min 6 v) ≤ 6; omega
  · show max 2 (min 6 v) = v; omega
  · show 1 ≤ max 1 (min 3 v); omega
  · show max 1 (min 3 v) ≤ 3; omega
  · show max 1 (min 3 v) = v; omega

/-- C4 amended witness: clamping at work on a concrete started room. -/
theorem config_clamp_amended_witness :
    (2 : Int) ≤ 3 ∧ (3 : Int) ≤ 4 ∧ (handleConfig startedRoom 3).max_players = 3 :=
  ⟨by decide, by decide, (config_clamp_amended startedRoom 3).2.2.1 (by decide) (by decide)⟩

/-! ## Claim theorems: map generation (C8) -/

set_option maxRecDepth 100000 in
/-- C8: for every radius in [2,6] both generators produce exactly
`3·r² + 3·r + 1` cells, all of whose axial coordinates satisfy
`|q|, |r|, |-q-r| ≤ radius`. -/
theorem map_generation_size_bounds (r : Int) (h2 : 2 ≤ r) (h6 : r ≤ 6) :
    (buildMap r).length = 3 * r.toNat * r.toNat + 3 * r.toNat + 1 ∧
    (∀ pr ∈ buildMap r, pr.2.q.natAbs ≤ r.toNat ∧ pr.2.r.natAbs ≤ r.toNat ∧
      (-pr.2.q - pr.2.r).natAbs ≤ r.toNat) ∧
    (generateMap r).length = 3 * r.toNat * r.toNat + 3 * r.toNat + 1 ∧
    (∀ pr ∈ generateMap r, pr.2.q.natAbs ≤ r.toNat ∧ pr.2.r.natAbs ≤ r.toNat ∧
      (-pr.2.q - pr.2.r).natAbs ≤ r.toNat) := by
  interval_cases r <;> exact ⟨by decide, by decide, by decide, by decide⟩

/-- C8 witness: the radius-2 disk has 19 cells. -/
theorem map_generation_size_bounds_witness :
    ((2 : Int) ≤ 2 ∧ (2 : Int) ≤ 6) ∧
    (buildMap 2).length = 3 * (2 : Int).toNat * (2 : Int).toNat + 3 * (2 : Int).toNat + 1 :=
  ⟨⟨by decide, by decide⟩, (map_generation_size_bounds 2 (by decide) (by decide)).1⟩

/-! ## Claim theorems: connection handling (C9) -/

/-- A color predicate given by its four values, for finite case analysis
over the fixed color order. -/
def colorFlag (fb fr fg fy : Bool) : Color → Bool
  | Color.blue => fb
  | Color.red => fr
  | Color.green => fg
  | Color.yellow => fy

theorem find?_colors_first (fb fr fg fy : Bool) (c : Color)
    (h : colors_order.find? (colorFlag fb fr fg fy) = some c) :
    colorFlag fb fr fg fy c = true ∧
    ∀ d : Color, colorIdx d < colorIdx c → colorFlag fb fr fg fy d = false := by
  revert h
  revert c
  revert fb fr fg fy
  decide

theorem find?_colors_none (fb fr fg fy : Bool)
    (h : colors_order.find? (colorFlag fb fr fg fy) = none) :
    ∀ c : Color, colorFlag fb fr fg fy c = false := by
  revert h
  revert fb fr fg fy
  decide

theorem freeColor_eq_flag (players : List Color) :
    freeColor players =
      colors_order.find? (colorFlag (decide (Color.blue ∉ players))
        (decide (Color.red ∉ players)) (decide (Color.green ∉ players))
        (decide (Color.yellow ∉ players))) := by
  unfold freeColor
  congr 1
  funext c
  cases c <;> rfl

/-- C9: a new connection is always given the lowest free color in the
fixed order — independently of whether the game has started, and without
touching the board — and is refused exactly when all four colors are
taken. -/
theorem join_assigns_lowest_free_color (g : GameState) :
    ((joinRoom g).1 = none ↔ ∀ c : Color, c ∈ g.players) ∧
    (∀ c : Color, (joinRoom g).1 = some c →
      c ∉ g.players ∧ (∀ d : Color, colorIdx d < colorIdx c → d ∈ g.players) ∧
      (joinRoom g).2.cells = g.cells ∧ (joinRoom g).2.started = g.started ∧
      (joinRoom g).2.players = g.players ++ [c]) ∧
    (∀ b : Bool, (joinRoom { g with started := b }).1 = (joinRoom g).1) := by
  refine ⟨?_, ?_, fun b => by cases hf : freeColor g.players <;> simp [joinRoom, hf]⟩
  · constructor
    · intro hnone c
      have h0 : freeColor g.players = none := by
        unfold joinRoom at hnone
        cases hf : freeColor g.players with
        | none => rfl
        | some c0 => rw [hf] at hnone; simp at hnone
      rw [freeColor_eq_flag] at h0
      have := find?_colors_none _ _ _ _ h0 c
      cases c <;> simpa [colorFlag] using this
    · intro hall
      unfold joinRoom
      cases hf : freeColor g.players with
      | none => rfl
      | some c0 =>
          rw [freeColor_eq_flag] at hf
          have := (find?_colors_first _ _ _ _ _ hf).1
          cases c0 <;> simp [colorFlag] at this <;> exact absurd (hall _) this
  · intro c hc
    have hf : freeColor g.players = some c := by
      unfold joinRoom at hc
      cases hf : freeColor g.players with
      | none => rw [hf] at hc; simp at hc
      | some c0 => rw [hf] at hc; simp at hc; rw [hc]
    have hjr : joinRoom g = (some c, { g with players := g.players ++ [c] }) := by
      unfold joinRoom
      rw [hf]
    rw [freeColor_eq_flag] at hf
    obtain ⟨h1, h2⟩ := find?_colors_first _ _ _ _ _ hf
    refine ⟨?_, ?_, ?_, ?_, ?_⟩
    · cases c <;> simpa [colorFlag] using h1
    · intro d hd
      have := h2 d hd
      cases d <;> simpa [colorFlag] using this
    · rw [hjr]
    · rw [hjr]
    · rw [hjr]

/-- C9 witness: with blue and red taken, a joiner gets green, the board
is untouched, and nothing about the assignment reads the started flag. -/
theorem join_assigns_lowest_free_color_witness :
    Color.green ∉ startedRoom.players ∧
    (joinRoom startedRoom).2.cells = startedRoom.cells ∧
    (joinRoom startedRoom).2.players = startedRoom.players ++ [Color.green] :=
  ⟨((join_assigns_lowest_free_color startedRoom).2.1 Color.green (by decide)).1,
    ((join_assigns_lowest_free_color startedRoom).2.1 Color.green (by decide)).2.2.1,
    ((join_assigns_lowest_free_color startedRoom).2.1 Color.green (by decide)).2.2.2.2⟩

/-! ## Claim theorems: turn advancement (C6) -/

/-- Specification-side reading of "the next alive color after `cur` in
the fixed order with wrap-around": scan the colors strictly after `cur`
in the fixed order, wrapping past the end, and take the first alive one. -/
def cyclicNextAlive (cur : Color) (alive : List Color) : Option Color :=
  ((colors_order ++ colors_order).drop (colorIdx cur + 1)).find?
    (fun c => decide (c ∈ alive))

theorem nextFromAlive_spec (fb fr fg fy : Bool) (current : Option Color) :
    (colors_order.filter (colorFlag fb fr fg fy) ≠ [] →
      ∃ c, nextFromAlive (colors_order.filter (colorFlag fb fr fg fy)) current = some c ∧
        c ∈ colors_order.filter (colorFlag fb fr fg fy)) ∧
    (∀ cur, current = some cur → cur ∈ colors_order.filter (colorFlag fb fr fg fy) →
      nextFromAlive (colors_order.filter (colorFlag fb fr fg fy)) current =
        cyclicNextAlive cur (colors_order.filter (colorFlag fb fr fg fy))) := by
  revert current
  revert fb fr fg fy
  decide

theorem foldl_ownedCount_aux (c : Color) (l : Cells) :
    ∀ n : Nat,
      0 < l.foldl (fun n pr => if pr.2.owner = some c then n + 1 else n) n →
      0 < n ∨ ∃ pr ∈ l, pr.2.owner = some c := by
  induction l with
  | nil => intro n h; exact Or.inl h
  | cons hd tl ih =>
      intro n h
      simp only [List.foldl_cons] at h
      rcases ih _ h with h1 | ⟨pr, hpr, hown⟩
      · by_cases ho : hd.2.owner = some c
        · exact Or.inr ⟨hd, List.mem_cons_self _ _, ho⟩
        · rw [if_neg ho] at h1
          exact Or.inl h1
      · exact Or.inr ⟨pr, List.mem_cons_of_mem _ hpr, hown⟩

theorem ownedCount_pos {cells : Cells} {c : Color} (h : 0 < ownedCount cells c) :
    ∃ pr ∈ cells, pr.2.owner = some c := by
  rcases foldl_ownedCount_aux c cells 0 h with h1 | h1
  · exact absurd h1 (by simp)
  · exact h1

/-- C6: whenever at least one color owns a cell, `next_player_color`
produces an alive color — the next alive one after the current player in
the fixed order with wrap-around, or the first alive color when the
current player is missing or no longer alive — and that color always
owns at least one cell. -/
theorem nextPlayerColor_alive (cells : Cells) (current : Option Color)
    (h : aliveColors cells ≠ []) :
    (∃ c, nextPlayerColor cells current = some c ∧ c ∈ aliveColors cells ∧
      ∃ pr ∈ cells, pr.2.owner = some c) ∧
    (∀ cur, current = some cur → cur ∈ aliveColors cells →
      nextPlayerColor cells current = cyclicNextAlive cur (aliveColors cells)) ∧
    (current = none → nextPlayerColor cells current = (aliveColors cells).head?) ∧
    (∀ cur, current = some cur → cur ∉ aliveColors cells →
      nextPlayerColor cells current = (aliveColors cells).head?) := by
  have hfun : (fun c => decide (0 < ownedCount cells c)) =
      colorFlag (decide (0 < ownedCount cells Color.blue))
        (decide (0 < ownedCount cells Color.red))
        (decide (0 < ownedCount cells Color.green))
        (decide (0 < ownedCount cells Color.yellow)) :=
    funext fun c => by cases c <;> rfl
  have halive : aliveColors cells =
      colors_order.filter (colorFlag (decide (0 < ownedCount cells Color.blue))
        (decide (0 < ownedCount cells Color.red))
        (decide (0 < ownedCount cells Color.green))
        (decide (0 < ownedCount cells Color.yellow))) := by
    unfold aliveColors
    rw [hfun]
  obtain ⟨hex, hcyc⟩ := nextFromAlive_spec (decide (0 < ownedCount cells Color.blue))
    (decide (0 < ownedCount cells Color.red)) (decide (0 < ownedCount cells Color.green))
    (decide (0 < ownedCount cells Color.yellow)) current
  have hne : colors_order.filter (colorFlag (decide (0 < ownedCount cells Color.blue))
      (decide (0 < ownedCount cells Color.red)) (decide (0 < ownedCount cells Color.green))
      (decide (0 < ownedCount cells Color.yellow))) ≠ [] := by
    rw [← halive]; exact h
  refine ⟨?_, ?_, ?_, ?_⟩
  · obtain ⟨c, hc, hmem⟩ := hex hne
    refine ⟨c, ?_, ?_, ?_⟩
    · show nextFromAlive (aliveColors cells) current = some c
      rw [halive]; exact hc
    · rw [halive]; exact hmem
    · have hmem2 : c ∈ colors_order.filter (fun x => decide (0 < ownedCount cells x)) := by
        show c ∈ aliveColors cells
        rw [halive]; exact hmem
      have hp : decide (0 < ownedCount cells c) = true := (List.mem_filter.mp hmem2).2
      exact ownedCount_pos (of_decide_eq_true hp)
  · intro cur hcur hmem
    show nextFromAlive (aliveColors cells) current = cyclicNextAlive cur (aliveColors cells)
    rw [halive]
    exact hcyc cur hcur (by rw [← halive]; exact hmem)
  · intro hcur
    subst hcur
    show nextFromAlive (aliveColors cells) none = (aliveColors cells).head?
    cases hal : aliveColors cells with
    | nil => exact absurd hal h
    | cons a l => simp [nextFromAlive]
  · intro cur hcur hmem
    subst hcur
    show nextFromAlive (aliveColors cells) (some cur) = (aliveColors cells).head?
    cases hal : aliveColors cells with
    | nil => exact absurd hal h
    | cons a l =>
        rw [hal] at hmem
        simp [nextFromAlive, hmem]

/-- C6 witness: with blue and red alive and blue to move, the turn passes
to red, which owns a cell. -/
theorem nextPlayerColor_alive_witness :
    ∃ c, nextPlayerColor
        [(0, Cell.mk 0 0 (some Color.blue) 1), (1, Cell.mk 0 1 (some Color.red) 1)]
        (some Color.blue) = some c ∧
      c ∈ aliveColors
        [(0, Cell.mk 0 0 (some Color.blue) 1), (1, Cell.mk 0 1 (some Color.red) 1)] ∧
      ∃ pr ∈ ([(0, Cell.mk 0 0 (some Color.blue) 1),
        (1, Cell.mk 0 1 (some Color.red) 1)] : Cells), pr.2.owner = some c :=
  (nextPlayerColor_alive
    [(0, Cell.mk 0 0 (some Color.blue) 1), (1, Cell.mk 0 1 (some Color.red) 1)]
    (some Color.blue) (by decide)).1

/-! ## Claim theorems: game start (C5) -/

/-- Proof-side reformulation of the assignment loop: because the shuffled
id list has no duplicates, "first id not yet used" walks the not-yet-used
ids in order, so the loop is equivalent to pairing participants with the
available ids one by one. -/
def assignZip : List Color → List Int → Cells → Cells
  | [], _, cells => cells
  | _ :: ps, [], cells => assignZip ps [] cells
  | p :: ps, a :: avail, cells =>
      assignZip ps avail
        (updateCell cells a (fun c => { c with owner := some p, troops := 10 }))

theorem pickFirst_eq (shuffled used : List Int) :
    pickFirst shuffled used = (shuffled.filter (fun i => decide (i ∉ used))).head? := by
  induction shuffled with
  | nil => rfl
  | cons a l ih =>
      by_cases ha : a ∉ used
      · simp [pickFirst, List.find?, List.filter, ha]
      · simp only [pickFirst, List.find?, List.filter, decide_eq_true_eq] at ih ⊢
        rw [decide_eq_false ha]
        exact ih

theorem filter_notMem_cons (shuffled used : List Int) (cid : Int) :
    shuffled.filter (fun i => decide (i ∉ cid :: used)) =
      (shuffled.filter (fun i => decide (i ∉ used))).filter (fun i => decide (i ≠ cid)) := by
  induction shuffled with
  | nil => rfl
  | cons a l ih =>
      by_cases h1 : a ∉ used
      · by_cases h2 : a ≠ cid
        · have h3 : a ∉ cid :: used := by
            simp only [List.mem_cons]
            rintro (rfl | hmem)
            · exact h2 rfl
            · exact h1 hmem
          simp only [List.filter_cons, decide_eq_true_eq]
          rw [if_pos h3, if_pos h1]
          simp only [List.filter_cons, decide_eq_true_eq]
          rw [if_pos h2, ih]
        · rw [not_not] at h2
          have h3 : ¬ a ∉ cid :: used := by
            rw [not_not]
            exact List.mem_cons.mpr (Or.inl h2)
          simp only [List.filter_cons, decide_eq_true_eq]
          rw [if_neg h3, if_pos h1]
          simp only [List.filter_cons, decide_eq_true_eq]
          rw [if_neg (by rw [not_not]; exact h2), ih]
      · have h3 : ¬ a ∉ cid :: used := by
          rw [not_not] at h1 ⊢
          exact List.mem_cons.mpr (Or.inr h1)
        simp only [List.filter_cons, decide_eq_true_eq]
        rw [if_neg h3, if_neg h1, ih]

theorem assignLoop_eq_assignZip (ps : List Color) (shuffled : List Int)
    (hnd : shuffled.Nodup) :
    ∀ (used : List Int) (cells : Cells),
      assignLoop ps cells shuffled used =
        assignZip ps (shuffled.filter (fun i => decide (i ∉ used))) cells := by
  induction ps with
  | nil => intro used cells; rfl
  | cons p ps ih =>
      intro used cells
      simp only [assignLoop]
      rw [pickFirst_eq]
      cases hav : shuffled.filter (fun i => decide (i ∉ used)) with
      | nil =>
          show assignLoop ps cells shuffled used = assignZip (p :: ps) [] cells
          rw [ih used cells, hav]
          rfl
      | cons cid rest =>
          show assignLoop ps
              (updateCell cells cid (fun c => { c with owner := some p, troops := 10 }))
              shuffled (cid :: used) =
            assignZip (p :: ps) (cid :: rest) cells
          have hnd2 : (cid :: rest).Nodup := hav ▸ List.Nodup.filter _ hnd
          have hcid : cid ∉ rest := (List.nodup_cons.mp hnd2).1
          have hrest : (cid :: rest).filter (fun i => decide (i ≠ cid)) = rest := by
            simp only [List.filter_cons]
            rw [decide_eq_false (by simp), if_neg (by simp)]
            exact List.filter_eq_self.mpr
              (fun a ha => decide_eq_true (fun he => hcid (he ▸ ha)))
          rw [ih (cid :: used)
            (updateCell cells cid (fun c => { c with owner := some p, troops := 10 }))]
          rw [filter_notMem_cons, hav, hrest]
          rfl

theorem assignZip_untouched (ps : List Color) :
    ∀ (avail : List Int) (cells : Cells) (i : Int), i ∉ avail →
      getCell (assignZip ps avail cells) i = getCell cells i := by
  induction ps with
  | nil => intro avail cells i _; rfl
  | cons p ps ih =>
      intro avail cells i h
      cases avail with
      | nil => exact ih [] cells i h
      | cons a rest =>
          have hia : ¬ a = i := fun he => h (by rw [he]; exact List.mem_cons_self _ _)
          show getCell (assignZip ps rest
            (updateCell cells a (fun c => { c with owner := some p, troops := 10 }))) i =
              getCell cells i
          rw [ih rest _ i (fun hm => h (List.mem_cons_of_mem _ hm))]
          rw [getCell_updateCell, if_neg hia]

theorem assignZip_owner_origin (q : Color) :
    ∀ (ps : List Color) (avail : List Int) (cells : Cells), q ∉ ps →
      ∀ j c', getCell (assignZip ps avail cells) j = some c' → c'.owner = some q →
        ∃ c, getCell cells j = some c ∧ c.owner = some q := by
  intro ps
  induction ps with
  | nil => intro avail cells _ j c' hg ho; exact ⟨c', hg, ho⟩
  | cons p ps ih =>
      intro avail cells h j c' hg ho
      have hqps : q ∉ ps := fun hm => h (List.mem_cons_of_mem _ hm)
      have hqp : q ≠ p := fun he => h (by rw [he]; exact List.mem_cons_self _ _)
      cases avail with
      | nil => exact ih [] cells hqps j c' hg ho
      | cons a rest =>
          obtain ⟨c, hc, hco⟩ := ih rest _ hqps j c' hg ho
          rw [getCell_updateCell] at hc
          by_cases haj : a = j
          · rw [if_pos haj] at hc
            cases hg0 : getCell cells j with
            | none => rw [hg0] at hc; simp at hc
            | some c0 =>
                rw [hg0] at hc
                simp only [Option.map_some', Option.some.injEq] at hc
                rw [← hc] at hco
                have hpq : (some p : Option Color) = some q := hco
                injection hpq with hpq
                exact absurd hpq.symm hqp
          · rw [if_neg haj] at hc
            exact ⟨c, hc, hco⟩

theorem assignZip_keys (ps : List Color) :
    ∀ (avail : List Int) (cells : Cells),
      (assignZip ps avail cells).map Prod.fst = cells.map Prod.fst := by
  induction ps with
  | nil => intro avail cells; rfl
  | cons p ps ih =>
      intro avail cells
      cases avail with
      | nil => exact ih [] cells
      | cons a rest =>
          show (assignZip ps rest _).map Prod.fst = _
          rw [ih rest _, keys_updateCell]

theorem assignZip_spec :
    ∀ (ps : List Color) (avail : List Int) (cells : Cells),
      ps.Nodup → avail.Nodup → ps.length ≤ avail.length →
      (∀ a ∈ avail, ∃ c, getCell cells a = some c) →
      (∀ p ∈ ps, ∀ j c, getCell cells j = some c → c.owner ≠ some p) →
      ∀ p ∈ ps, ∃ i c, getCell (assignZip ps avail cells) i = some c ∧
        c.owner = some p ∧ c.troops = 10 ∧
        ∀ j c', getCell (assignZip ps avail cells) j = some c' → c'.owner = some p → j = i := by
  intro ps
  induction ps with
  | nil => intro avail cells _ _ _ _ _ p hp; exact absurd hp (List.not_mem_nil p)
  | cons p0 ps ih =>
      intro avail cells hnd hand hlen hkeys hfree p hp
      cases avail with
      | nil => simp at hlen
      | cons a0 rest =>
          obtain ⟨c0, hc0⟩ := hkeys a0 (List.mem_cons_self _ _)
          have hp0ps : p0 ∉ ps := (List.nodup_cons.mp hnd).1
          have ha0rest : a0 ∉ rest := (List.nodup_cons.mp hand).1
          have hup : getCell (updateCell cells a0
              (fun c => { c with owner := some p0, troops := 10 })) a0 =
              some { c0 with owner := some p0, troops := 10 } := by
            rw [getCell_updateCell, if_pos rfl, hc0]
            rfl
          rcases List.mem_cons.mp hp with hpp | hp'
          · subst hpp
            refine ⟨a0, { c0 with owner := some p, troops := 10 }, ?_, rfl, rfl, ?_⟩
            · show getCell (assignZip ps rest _) a0 = _
              rw [assignZip_untouched ps rest _ a0 ha0rest]
              exact hup
            · intro j c' hg ho
              obtain ⟨c, hc, hco⟩ := assignZip_owner_origin p ps rest _ hp0ps j c' hg ho
              rw [getCell_updateCell] at hc
              by_cases haj : a0 = j
              · exact haj.symm
              · rw [if_neg haj] at hc
                exact absurd hco (hfree p (List.mem_cons_self _ _) j c hc)
          · have hkeys1 : ∀ a ∈ rest, ∃ c, getCell (updateCell cells a0
                (fun c => { c with owner := some p0, troops := 10 })) a = some c := by
              intro a ha
              obtain ⟨c, hc⟩ := hkeys a (List.mem_cons_of_mem _ ha)
              rw [getCell_updateCell]
              by_cases h : a0 = a
              · rw [if_pos h, hc]
                exact ⟨_, rfl⟩
              · rw [if_neg h]
                exact ⟨c, hc⟩
            have hfree1 : ∀ q ∈ ps, ∀ j c, getCell (updateCell cells a0
                (fun c => { c with owner := some p0, troops := 10 })) j = some c →
                c.owner ≠ some q := by
              intro q hq j c hc ho
              rw [getCell_updateCell] at hc
              by_cases h : a0 = j
              · rw [if_pos h, ← h, hc0] at hc
                simp only [Option.map_some', Option.some.injEq] at hc
                rw [← hc] at ho
                have hpq : (some p0 : Option Color) = some q := ho
                injection hpq with hpq
                exact hp0ps (by rw [hpq]; exact hq)
              · rw [if_neg h] at hc
                exact hfree q (List.mem_cons_of_mem _ hq) j c hc ho
            exact ih rest _ (List.nodup_cons.mp hnd).2 (List.nodup_cons.mp hand).2
              (by simpa using hlen) hkeys1 hfree1 p hp'

set_option maxRecDepth 100000 in
theorem buildMap_length_ge (r : Int) (h2 : 2 ≤ r) (h6 : r ≤ 6) :
    4 ≤ (buildMap r).length := by
  interval_cases r <;> decide

set_option maxRecDepth 100000 in
theorem buildMap_owner_none (r : Int) (h2 : 2 ≤ r) (h6 : r ≤ 6) :
    ∀ pr ∈ buildMap r, pr.2.owner = none := by
  interval_cases r <;> decide

theorem find?_mem_flag (players : List Color) :
    colors_order.find? (fun c => decide (c ∈ players)) =
      colors_order.find? (colorFlag (decide (Color.blue ∈ players))
        (decide (Color.red ∈ players)) (decide (Color.green ∈ players))
        (decide (Color.yellow ∈ players))) := by
  congr 1
  funext c
  cases c <;> rfl

/-- C5: a start request in a lobby with fewer than 2 participants fails
with no state change; otherwise a fresh map is generated, every
participant receives exactly one distinct cell with their color and 10
troops, the game is marked started with a cleared move history, and the
current player becomes the first color in the fixed order held by a
participant.  The `shuffled` parameter stands for the random permutation
of the cell ids drawn by the handler. -/
theorem startGame_spec (g : GameState) (shuffled : List Int)
    (hstarted : g.started = false)
    (hperm : shuffled.Perm ((buildMap g.map_radius).map Prod.fst))
    (hnodup : shuffled.Nodup)
    (hpnd : g.players.Nodup)
    (hr2 : 2 ≤ g.map_radius) (hr6 : g.map_radius ≤ 6) :
    (g.players.length < 2 → startGame g shuffled = none) ∧
    (2 ≤ g.players.length →
      ∃ g', startGame g shuffled = some g' ∧
        g'.started = true ∧
        g'.last_moves = [] ∧
        g'.cells.map Prod.fst = (buildMap g.map_radius).map Prod.fst ∧
        (∀ p ∈ g.players, ∃ i c, getCell g'.cells i = some c ∧ c.owner = some p ∧
          c.troops = 10 ∧
          ∀ j c', getCell g'.cells j = some c' → c'.owner = some p → j = i) ∧
        (∃ c, g'.current_player = some c ∧ c ∈ g.players ∧
          ∀ d : Color, colorIdx d < colorIdx c → d ∉ g.players)) := by
  have hloop : assignLoop g.players (buildMap g.map_radius) shuffled [] =
      assignZip g.players shuffled (buildMap g.map_radius) := by
    rw [assignLoop_eq_assignZip g.players shuffled hnodup [] (buildMap g.map_radius)]
    congr 1
    exact List.filter_eq_self.mpr (fun a _ => by simp)
  have hcard : Fintype.card Color = 4 := rfl
  have hlen4 : g.players.length ≤ 4 := by
    have := List.Nodup.length_le_card hpnd
    omega
  have hmaplen : 4 ≤ (buildMap g.map_radius).length := buildMap_length_ge _ hr2 hr6
  have hshuflen : g.players.length ≤ shuffled.length := by
    rw [hperm.length_eq, List.length_map]
    omega
  have hkeys : ∀ a ∈ shuffled, ∃ c, getCell (buildMap g.map_radius) a = some c :=
    fun a ha => mem_keys_getCell (hperm.mem_iff.mp ha)
  have hfreeAll : ∀ p ∈ g.players, ∀ j c, getCell (buildMap g.map_radius) j = some c →
      c.owner ≠ some p := by
    intro p _ j c hc ho
    have hnone := buildMap_owner_none _ hr2 hr6 _ (getCell_mem hc)
    rw [hnone] at ho
    exact Option.noConfusion ho
  constructor
  · intro hlt
    unfold startGame
    rw [hstarted]
    simp [hlt]
  · intro hge
    have hnlt : ¬ g.players.length < 2 := by omega
    refine ⟨{ g with
        started := true
        cells := assignLoop g.players (buildMap g.map_radius) shuffled []
        last_moves := []
        current_player := colors_order.find? (fun c => decide (c ∈ g.players)) },
      ?_, rfl, rfl, ?_, ?_, ?_⟩
    · unfold startGame
      rw [hstarted]
      simp only [Bool.false_eq_true, if_false]
      rw [if_neg hnlt]
    · show (assignLoop g.players (buildMap g.map_radius) shuffled []).map Prod.fst = _
      rw [hloop, assignZip_keys]
    · intro p hp
      show ∃ i c, getCell (assignLoop g.players (buildMap g.map_radius) shuffled []) i =
        some c ∧ _
      rw [hloop]
      exact assignZip_spec g.players shuffled (buildMap g.map_radius) hpnd hnodup hshuflen
        hkeys hfreeAll p hp
    · show ∃ c, colors_order.find? (fun c => decide (c ∈ g.players)) = some c ∧ _
      cases hfind : colors_order.find? (fun c => decide (c ∈ g.players)) with
      | none =>
          exfalso
          rw [find?_mem_flag] at hfind
          have hall := find?_colors_none _ _ _ _ hfind
          obtain ⟨p, hpmem⟩ : ∃ p, p ∈ g.players := by
            cases hq : g.players with
            | nil => rw [hq] at hge; simp at hge
            | cons x l => exact ⟨x, List.mem_cons_self _ _⟩
          have hflag := hall p
          cases p <;> simp [colorFlag] at hflag <;> exact hflag hpmem
      | some c =>
          rw [find?_mem_flag] at hfind
          obtain ⟨hflag, hmin⟩ := find?_colors_first _ _ _ _ _ hfind
          refine ⟨c, rfl, ?_, ?_⟩
          · cases c <;> simpa [colorFlag] using hflag
          · intro d hd
            have hdd := hmin d hd
            cases d <;> simpa [colorFlag] using hdd

/-- C5 witness: a radius-2 lobby with blue and red starts successfully;
the failure half is exercised by the hypotheses being discharged on the
same concrete room. -/
theorem startGame_spec_witness :
    ∃ g', startGame
        { started := false, max_players := 4, map_radius := 2, difficulty := 2,
          players := [Color.blue, Color.red], cells := [], last_moves := [],
          current_player := none } ((buildMap 2).map Prod.fst) = some g' ∧
      g'.started = true ∧
      g'.last_moves = [] ∧
      g'.cells.map Prod.fst = (buildMap 2).map Prod.fst ∧
      (∀ p ∈ [Color.blue, Color.red], ∃ i c, getCell g'.cells i = some c ∧
        c.owner = some p ∧ c.troops = 10 ∧
        ∀ j c', getCell g'.cells j = some c' → c'.owner = some p → j = i) ∧
      (∃ c, g'.current_player = some c ∧ c ∈ [Color.blue, Color.red] ∧
        ∀ d : Color, colorIdx d < colorIdx c → d ∉ [Color.blue, Color.red]) :=
  (startGame_spec
    { started := false, max_players := 4, map_radius := 2, difficulty := 2,
      players := [Color.blue, Color.red], cells := [], last_moves := [],
      current_player := none } ((buildMap 2).map Prod.fst)
    rfl (List.Perm.refl _) (by decide) (by decide) (by decide) (by decide)).2 (by decide)
